import Mathlib

/-!
# glance: status webhook, state engine and connection registry

A shallow embedding of `server/server.go` and `server/websocket.go`.

* Go `int` values are `Int` (64-bit; the topology is parsed with bit size 32, so
  `patronBots + 1` cannot overflow).
* A Go `map[int]T` is an association list with unique-key operations (`GoMap`).
  Maps are values here: every shard map of the program comes from its own
  `make` (or its own decoded entry), so no two bots share one.
* The `clients` slice is a backing array together with its length, because
  `die` and the `range` loops of `sayUpdate`/`sayTick` share that array.
* The `updateList` channel is its buffer, a FIFO list of capacity 128; a send
  on a full buffer waits, which the handler's result records.
* Effects on the outside world (socket writes, closes, the snapshot file) are
  recorded in order in a trace.
-/

namespace Glance

/-! ## Go maps -/

/-- A Go map with `int` keys: association list, at most one binding per key
is ever created by `set`. -/
abbrev GoMap (β : Type) := List (Int × β)

namespace GoMap

/-- The lookup `m[k]`; `none` is the missing key. -/
def get {β : Type} : GoMap β → Int → Option β
  | [], _ => none
  | (k', v) :: rest, k => if k' = k then some v else get rest k

/-- The assignment `m[k] = v`: overwrites the binding of `k` or adds one. -/
def set {β : Type} : GoMap β → Int → β → GoMap β
  | [], k, v => [(k, v)]
  | (k', v') :: rest, k, v => if k' = k then (k, v) :: rest else (k', v') :: set rest k v

/-- The keys of the map. -/
def keys {β : Type} (m : GoMap β) : List Int := m.map Prod.fst

end GoMap

/-- The status cache `map[int]map[int]int`: bot -> shard -> status. -/
abbrev Cache := GoMap (GoMap Int)

/-! ## Messages, connections, effects -/

/-- Modelled from the spec: the declaration of `ShardUpdate` is not in the
sources read here; its fields are the ones the handler and the state engine
use (`u.Bot`, `u.ID`, `u.Status`), decoded from `{bot, id, status}`. -/
structure ShardUpdate where
  Bot : Int
  ID : Int
  Status : Int
  deriving DecidableEq, Repr

/-- Modelled from the spec: the declarations of `Message`, `HelloMessage`,
`UpdateMessage` and the `Op*` constants are not in the sources read here; the
three envelopes are the ones built by `sayHello`, `sayUpdate` and `sayTick`. -/
inductive Message where
  | hello (totalShards totalPatrons patronShards : Int) (state : Cache)
  | update (bot shard status : Int)
  | tick
  deriving DecidableEq, Repr

/-- A `*websocket.Conn`, compared by pointer identity. -/
abbrev Conn := Nat

/-- What the process does to the outside world, in program order. -/
inductive Effect where
  /-- `websocket.NewPreparedMessage` for a broadcast. -/
  | prepared (m : Message)
  /-- `c.WritePreparedMessage(pm)`, with whether it returned no error. -/
  | write (c : Conn) (m : Message) (ok : Bool)
  /-- `conn.Close()`. -/
  | close (c : Conn)
  /-- `s.shardCache[bot][id] = status`. -/
  | cacheSet (bot id status : Int)
  /-- `ioutil.WriteFile("state.dat", ...)` of the encoded cache, with whether it succeeded. -/
  | writeFile (cache : Cache) (ok : Bool)
  deriving DecidableEq, Repr

/-- A Go slice of connections: the backing array and the slice length
(`len <= cap = arr.length`). -/
structure Slice where
  arr : List Conn
  len : Nat
  deriving DecidableEq, Repr

/-- The elements of the slice, `arr[0:len]`. -/
def Slice.toList (c : Slice) : List Conn := c.arr.take c.len

/-- The slice invariant of Go: the length does not exceed the capacity. -/
def Slice.WF (c : Slice) : Prop := c.len ≤ c.arr.length

instance (c : Slice) : Decidable c.WF := by
  unfold Slice.WF
  infer_instance

/-- The slice whose backing array is exactly its elements. -/
def Slice.ofList (l : List Conn) : Slice := ⟨l, l.length⟩

/-- Capacity of the `updateList` channel, `make(chan ShardUpdate, 128)`. -/
def updateListCap : Nat := 128

/-- The `socketServer` struct (the upgrader has no state of interest), with
the trace of effects performed so far. -/
structure socketServer where
  clients : Slice
  totalShards : Int
  patronBots : Int
  patronShards : Int
  shardCache : Cache
  updateList : List ShardUpdate
  trace : List Effect
  deriving DecidableEq, Repr

/-! ## newSocketServer -/

/-- The loop `for i := 1; i < total+1; i++ { cache[i] = make(map[int]int, patronShards) }`,
run for the `n` remaining iterations starting at `i`. -/
def newSocketServer.fill : Nat → Int → Cache → Cache
  | 0, _, cache => cache
  | n + 1, i, cache => newSocketServer.fill n (i + 1) (GoMap.set cache i [])

/-- The constructor `newSocketServer`. The three arguments are the results of
`strconv.ParseInt` on `BOT_SHARDS`, `PATRON_BOTS` and `PATRON_SHARDS`
(`none`: parse error, the constructor panics). The size hints given to `make`
only reserve space and are left out. -/
def newSocketServer (botShards patronBotsEnv patronShardsEnv : Option Int) : Option socketServer :=
  match botShards with
  | none => none
  | some totalShards =>
    match patronBotsEnv with
    | none => none
    | some totalPatrons =>
      match patronShardsEnv with
      | none => none
      | some patronShards =>
        let cache : Cache := GoMap.set [] 0 []
        let total := totalPatrons
        -- i runs over 1, ..., total: (total + 1 - 1) iterations when total >= 1
        let cache := newSocketServer.fill total.toNat 1 cache
        some
          { clients := Slice.ofList []
            totalShards := totalShards
            patronBots := total
            patronShards := patronShards
            shardCache := cache
            updateList := []
            trace := [] }

/-! ## The connection registry: die -/

/-- The search loop of `die`: index of the first element equal to `conn`. -/
def die.find (conn : Conn) : List Conn → Nat → Option Nat
  | [], _ => none
  | c :: rest, idx => if c = conn then some idx else die.find conn rest (idx + 1)

/-- The method `die`: closes the connection, looks it up in `s.clients`, and
if found swaps it with the last element and drops the last element. Both
indices are inside the backing array of a well-formed slice; the last branch
is the index-out-of-range case, which such a slice never reaches. -/
def die (s : socketServer) (conn : Conn) : socketServer :=
  let s := { s with trace := s.trace ++ [Effect.close conn] }
  match die.find conn s.clients.toList 0 with
  | none => s
  | some i =>
    let c := s.clients
    let last := c.len - 1
    -- c[len(c)-1], c[i] = c[i], c[len(c)-1]
    match c.arr.get? i, c.arr.get? last with
    | some ci, some cl =>
      let arr := (c.arr.set last ci).set i cl
      { s with clients := { arr := arr, len := c.len - 1 } }
    | _, _ => s

/-! ## The broadcast engine -/

/-- The environment of a run: which connections return an error from
`WritePreparedMessage` (a connection that failed or was closed keeps failing),
and whether writing the snapshot file succeeds. -/
structure Env where
  fails : Conn → Bool
  diskOk : Bool

/-- The loop `for _, c := range s.clients { ... }` of `sayUpdate` and `sayTick`:
the indices come from the slice as it was when the loop started, the element is
read from the shared backing array at each iteration (`die` never reallocates
it, so every index stays inside it and the `none` branch is not reached). -/
def broadcastLoop (env : Env) (pm : Message) : List Nat → socketServer → socketServer
  | [], s => s
  | idx :: rest, s =>
    match s.clients.arr.get? idx with
    | none => broadcastLoop env pm rest s
    | some c =>
      if env.fails c then
        broadcastLoop env pm rest (die { s with trace := s.trace ++ [Effect.write c pm false] } c)
      else
        broadcastLoop env pm rest { s with trace := s.trace ++ [Effect.write c pm true] }

/-- The method `sayUpdate`: builds the `update` envelope, prepares it once and
writes it to the clients (marshalling these integer fields cannot fail). -/
def sayUpdate (env : Env) (s : socketServer) (u : ShardUpdate) : socketServer :=
  let data := Message.update u.Bot u.ID u.Status
  broadcastLoop env data (List.range s.clients.len)
    { s with trace := s.trace ++ [Effect.prepared data] }

/-- The method `sayTick`: the same loop for the `tick` envelope. -/
def sayTick (env : Env) (s : socketServer) : socketServer :=
  let data := Message.tick
  broadcastLoop env data (List.range s.clients.len)
    { s with trace := s.trace ++ [Effect.prepared data] }

/-! ## The state engine -/

/-- Why the process stopped. -/
inductive Panic where
  /-- Assignment to an entry in a nil map: `s.shardCache[u.Bot]` is missing. -/
  | nilMap
  /-- The method `saveState` could not write the snapshot. -/
  | saveFailed
  deriving DecidableEq, Repr

/-- The state reached by a step and the panic that ended it, if any. -/
structure StepResult where
  state : socketServer
  panic : Option Panic
  deriving DecidableEq, Repr

/-- The method `saveState`. -/
def saveState (env : Env) (s : socketServer) : StepResult :=
  let s1 := { s with trace := s.trace ++ [Effect.writeFile s.shardCache env.diskOk] }
  if env.diskOk then ⟨s1, none⟩ else ⟨s1, some Panic.saveFailed⟩

/-- The body of `case u := <-s.updateList:` in `run`. -/
def updateStep (env : Env) (s : socketServer) (u : ShardUpdate) : StepResult :=
  let s1 := sayUpdate env s u
  match GoMap.get s1.shardCache u.Bot with
  | none => ⟨s1, some Panic.nilMap⟩
  | some shards =>
    let s2 :=
      { s1 with
        shardCache := GoMap.set s1.shardCache u.Bot (GoMap.set shards u.ID u.Status)
        trace := s1.trace ++ [Effect.cacheSet u.Bot u.ID u.Status] }
    saveState env s2

/-- One turn of the `select` in `run` taking the update branch: receives the
head of the queue and runs the body; `none` when the queue is empty (the
branch is not ready). -/
def runUpdateCase (env : Env) (s : socketServer) : Option StepResult :=
  match s.updateList with
  | [] => none
  | u :: rest => some (updateStep env { s with updateList := rest } u)

/-- One turn of the `select` in `run` taking the ticker branch. -/
def runTickCase (env : Env) (s : socketServer) : socketServer :=
  sayTick env s

/-! ## The webhook handler -/

/-- The predicate `unicode.IsSpace` of the Go standard library. -/
def isSpace (c : Char) : Bool :=
  let n := c.toNat
  n = 0x09 || n = 0x0A || n = 0x0B || n = 0x0C || n = 0x0D || n = 0x20 ||
  n = 0x85 || n = 0xA0 || n = 0x1680 || (0x2000 ≤ n && n ≤ 0x200A) ||
  n = 0x2028 || n = 0x2029 || n = 0x202F || n = 0x205F || n = 0x3000

/-- The function `strings.TrimSpace` of the Go standard library: leading and
trailing white space removed. -/
def TrimSpace (v : String) : String :=
  String.mk (((v.toList.dropWhile isSpace).reverse.dropWhile isSpace).reverse)

/-- The part of a path after its last slash (the whole path if it has none). -/
def Base.lastElem : List Char → List Char → List Char
  | [], acc => acc
  | c :: rest, acc => if c = '/' then Base.lastElem rest [] else Base.lastElem rest (acc ++ [c])

/-- The function `path.Base` of the Go standard library: the last element of
the path, trailing slashes removed; "." for the empty path and "/" for a path
of slashes only. -/
def Base (p : String) : String :=
  if p = "" then "."
  else
    let stripped := (p.toList.reverse.dropWhile (fun c => c = '/')).reverse
    let elem := Base.lastElem stripped []
    if elem = [] then "/" else String.mk elem

/-- The outcome of reading and decoding the request body: `ioutil.ReadAll`
failed, `json.Unmarshal` failed, or a `ShardUpdate` was decoded. -/
inductive Body where
  | readError
  | decodeError
  | decoded (u : ShardUpdate)
  deriving DecidableEq, Repr

/-- The parts of `*http.Request` the handler reads. -/
structure Request where
  RemoteAddr : String
  Path : String
  body : Body
  deriving DecidableEq, Repr

/-- The `Server` struct (the listening address plays no part here). -/
structure Server where
  Key : String
  Ips : List String
  socket : socketServer
  deriving DecidableEq, Repr

/-- What a call of the handler comes to: a status code written with the state
of the socket server it leaves, or a goroutine waiting at
`s.socket.updateList <- u` because the channel buffer is full. -/
inductive HandlerResult where
  | responded (code : Nat) (socket : socketServer)
  | blockedOnSend (u : ShardUpdate)
  deriving DecidableEq, Repr

/-- The loop over `s.Ips` at the top of `StatusWebhook`, giving `isAllowed`. -/
def StatusWebhook.isAllowed (Ips : List String) (remoteAddr : String) : Bool :=
  match Ips with
  | [] => false
  | v :: rest => if TrimSpace v = remoteAddr then true else StatusWebhook.isAllowed rest remoteAddr

/-- The handler `StatusWebhook`. -/
def StatusWebhook (s : Server) (r : Request) : HandlerResult :=
  let isAllowed := StatusWebhook.isAllowed s.Ips r.RemoteAddr
  if isAllowed then HandlerResult.responded 403 s.socket
  else
    let key := Base r.Path
    if key ≠ s.Key then HandlerResult.responded 401 s.socket
    else
      match r.body with
      | Body.readError => HandlerResult.responded 500 s.socket
      | Body.decodeError => HandlerResult.responded 500 s.socket
      | Body.decoded u =>
        if u.Bot < 0 ∨ u.Bot > s.socket.patronBots + 1 then HandlerResult.responded 400 s.socket
        else if u.ID < 0 ∨ u.ID > s.socket.totalShards then HandlerResult.responded 400 s.socket
        else if u.Bot > 0 ∧ u.ID > s.socket.patronShards then HandlerResult.responded 400 s.socket
        else if s.socket.updateList.length < updateListCap then
          HandlerResult.responded 202
            { s.socket with updateList := s.socket.updateList ++ [u] }
        else HandlerResult.blockedOnSend u

/-! ## Concrete inputs -/

/-- An environment where every write succeeds and the disk is writable. -/
def healthyEnv : Env := ⟨fun _ => false, true⟩

/-- An environment where exactly connection 1 returns write errors. -/
def conn1FailsEnv : Env := ⟨fun c => decide (c = 1), true⟩

/-- An engine for topology (10, 2, 5) with one client and one cached status. -/
def engineOneClient : socketServer :=
  { clients := Slice.ofList [7], totalShards := 10, patronBots := 2, patronShards := 5,
    shardCache := [(0, [(3, 1)]), (1, []), (2, [])], updateList := [], trace := [] }

/-- An engine for topology (10, 2, 5) with the three clients 1, 2, 3. -/
def engineThreeClients : socketServer :=
  { clients := Slice.ofList [1, 2, 3], totalShards := 10, patronBots := 2, patronShards := 5,
    shardCache := [(0, []), (1, []), (2, [])], updateList := [], trace := [] }

/-- The update `{bot:0, id:3, status:2}` of the specification's scenario. -/
def updateBot0 : ShardUpdate := ⟨0, 3, 2⟩

/-- The socket server built for topology (10, 2, 5):
`totalShards=10, patronBotCount=2, patronShardCount=5`. -/
def sock1025 : socketServer :=
  { clients := Slice.ofList [], totalShards := 10, patronBots := 2, patronShards := 5,
    shardCache := [(0, []), (1, []), (2, [])], updateList := [], trace := [] }

/-- A server on `sock1025` with secret "s3cret" and allow-list `["10.0.0.1:4000"]`. -/
def server1025 : Server := { Key := "s3cret", Ips := ["10.0.0.1:4000"], socket := sock1025 }

/-- A server with the same secret and allow-list for topology (3, 2, 5), where
the patron shard bound exceeds `totalShards`. -/
def server325 : Server :=
  { Key := "s3cret", Ips := ["10.0.0.1:4000"],
    socket :=
      { clients := Slice.ofList [], totalShards := 3, patronBots := 2, patronShards := 5,
        shardCache := [(0, []), (1, []), (2, [])], updateList := [], trace := [] } }

/-- The server `server1025` with all 128 slots of the update queue taken. -/
def server1025Full : Server :=
  { server1025 with
    socket := { sock1025 with updateList := List.replicate 128 updateBot0 } }

/-- A request from an address that is not on the allow-list, with the right key. -/
def requestFrom (addr : String) (u : ShardUpdate) : Request :=
  { RemoteAddr := addr, Path := "/api/webhook/s3cret", body := Body.decoded u }

/-! ## Observations used by the statements -/

/-- The status recorded for a (bot, shard) pair, `cache[bot][shard]` when both
keys are present. -/
def Cache.status (c : Cache) (bot shard : Int) : Option Int :=
  (GoMap.get c bot).bind (fun shards => GoMap.get shards shard)

/-- Socket traffic of a broadcast: a write attempt or the close of a connection. -/
def Effect.isDelivery : Effect → Bool
  | Effect.write _ _ _ => true
  | Effect.close _ => true
  | _ => false

/-- The effects by which a message leaves for the observers: preparing it and
writing it to a connection. -/
def Effect.isBroadcast : Effect → Bool
  | Effect.prepared _ => true
  | Effect.write _ _ _ => true
  | _ => false

/-- Number of times message `m` was written to connection `c` without error. -/
def delivered (t : List Effect) (c : Conn) (m : Message) : Nat :=
  t.count (Effect.write c m true)

/-- Number of write attempts of message `m` on connection `c`, failed or not. -/
def attempted (t : List Effect) (c : Conn) (m : Message) : Nat :=
  t.count (Effect.write c m true) + t.count (Effect.write c m false)

/-- The ordering the specification asks of an update step with effects `t`:
whenever a broadcast effect occurs, the cache write of the update and a write
of the snapshot file have already occurred. -/
def CommitBeforeBroadcast (t : List Effect) (u : ShardUpdate) : Prop :=
  ∀ (pre post : List Effect) (e : Effect), t = pre ++ e :: post → e.isBroadcast = true →
    Effect.cacheSet u.Bot u.ID u.Status ∈ pre ∧ ∃ c ok, Effect.writeFile c ok ∈ pre

end Glance

namespace Glance

/-! ## Lemmas on Go maps -/

theorem GoMap.get_set_self {β : Type} (m : GoMap β) (k : Int) (v : β) :
    GoMap.get (GoMap.set m k v) k = some v := by
  induction m with
  | nil => simp [GoMap.set, GoMap.get]
  | cons p rest ih =>
    obtain ⟨k', v'⟩ := p
    by_cases h : k' = k
    · simp [GoMap.set, GoMap.get, h]
    · simp [GoMap.set, GoMap.get, h, ih]

theorem GoMap.get_set_other {β : Type} (m : GoMap β) (k j : Int) (v : β) (hne : j ≠ k) :
    GoMap.get (GoMap.set m k v) j = GoMap.get m j := by
  induction m with
  | nil =>
    have : ¬ k = j := fun h => hne h.symm
    simp [GoMap.set, GoMap.get, this]
  | cons p rest ih =>
    obtain ⟨k', v'⟩ := p
    by_cases h : k' = k
    · have : ¬ k = j := fun h => hne h.symm
      simp [GoMap.set, GoMap.get, h, this]
    · by_cases h2 : k' = j
      · subst h2
        simp [GoMap.set, GoMap.get, h]
      · simp [GoMap.set, GoMap.get, h, h2, ih]

theorem GoMap.mem_keys_iff {β : Type} (m : GoMap β) (k : Int) :
    k ∈ GoMap.keys m ↔ (GoMap.get m k).isSome = true := by
  induction m with
  | nil => simp [GoMap.keys, GoMap.get]
  | cons p rest ih =>
    obtain ⟨k', v'⟩ := p
    by_cases h : k' = k
    · simp [GoMap.keys, GoMap.get, h]
    · have h' : ¬ k = k' := fun e => h e.symm
      have ih' := ih
      simp only [GoMap.keys] at ih'
      simp [GoMap.keys, GoMap.get, h, h', ih']

theorem GoMap.keys_set_present {β : Type} (m : GoMap β) (k : Int) (v : β)
    (h : (GoMap.get m k).isSome = true) : GoMap.keys (GoMap.set m k v) = GoMap.keys m := by
  induction m with
  | nil => simp [GoMap.get] at h
  | cons p rest ih =>
    obtain ⟨k', v'⟩ := p
    by_cases hk : k' = k
    · simp [GoMap.set, GoMap.keys, hk]
    · simp only [GoMap.get, hk, if_false] at h
      have := ih h
      simp only [GoMap.keys] at this
      simp [GoMap.set, GoMap.keys, hk, this]

theorem GoMap.keys_set_absent {β : Type} (m : GoMap β) (k : Int) (v : β)
    (h : GoMap.get m k = none) : GoMap.keys (GoMap.set m k v) = GoMap.keys m ++ [k] := by
  induction m with
  | nil => simp [GoMap.set, GoMap.keys]
  | cons p rest ih =>
    obtain ⟨k', v'⟩ := p
    by_cases hk : k' = k
    · simp [GoMap.get, hk] at h
    · simp only [GoMap.get, hk, if_false] at h
      have := ih h
      simp only [GoMap.keys] at this
      simp [GoMap.set, GoMap.keys, hk, this]

theorem GoMap.nodup_keys_set {β : Type} (m : GoMap β) (k : Int) (v : β)
    (h : (GoMap.keys m).Nodup) : (GoMap.keys (GoMap.set m k v)).Nodup := by
  cases hg : GoMap.get m k with
  | none =>
    rw [GoMap.keys_set_absent m k v hg]
    have hnot : k ∉ GoMap.keys m := by
      rw [GoMap.mem_keys_iff, hg]; simp
    exact List.Nodup.append h (List.nodup_singleton k) (by
      intro a ha hb
      simp at hb
      subst hb
      exact hnot ha)
  | some w =>
    rw [GoMap.keys_set_present m k v (by simp [hg])]
    exact h

theorem GoMap.values_set {β : Type} (P : β → Prop) (m : GoMap β) (k : Int) (v : β)
    (hm : ∀ p ∈ m, P p.2) (hv : P v) : ∀ p ∈ GoMap.set m k v, P p.2 := by
  induction m with
  | nil =>
    intro p hp
    simp [GoMap.set] at hp
    subst hp
    exact hv
  | cons q rest ih =>
    obtain ⟨k', v'⟩ := q
    intro p hp
    by_cases hk : k' = k
    · simp only [GoMap.set, hk, if_true, List.mem_cons] at hp
      rcases hp with hp | hp
      · subst hp; exact hv
      · exact hm p (List.mem_cons_of_mem _ hp)
    · simp only [GoMap.set, hk, if_false, List.mem_cons] at hp
      rcases hp with hp | hp
      · subst hp; exact hm _ (List.mem_cons_self _ _)
      · exact ih (fun p hp => hm p (List.mem_cons_of_mem _ hp)) p hp

/-! ## Lemmas on newSocketServer -/

theorem newSocketServer.fill_get (n : Nat) (i : Int) (c : Cache) (b : Int) :
    GoMap.get (newSocketServer.fill n i c) b =
      if i ≤ b ∧ b < i + n then some [] else GoMap.get c b := by
  induction n generalizing i c with
  | zero =>
    have : ¬ (i ≤ b ∧ b < i + ((0 : Nat) : Int)) := by omega
    rw [if_neg this]
    rfl
  | succ n ih =>
    simp only [newSocketServer.fill]
    rw [ih]
    by_cases h1 : i + 1 ≤ b ∧ b < i + 1 + (n : Int)
    · have h2 : i ≤ b ∧ b < i + ((n + 1 : Nat) : Int) := by omega
      rw [if_pos h1, if_pos h2]
    · by_cases hb : b = i
      · subst hb
        have h2 : b ≤ b ∧ b < b + ((n + 1 : Nat) : Int) := by omega
        rw [if_neg h1, if_pos h2, GoMap.get_set_self]
      · have h2 : ¬ (i ≤ b ∧ b < i + ((n + 1 : Nat) : Int)) := by omega
        rw [if_neg h1, if_neg h2, GoMap.get_set_other _ _ _ _ hb]

theorem newSocketServer.fill_nodup (n : Nat) (i : Int) (c : Cache)
    (h : (GoMap.keys c).Nodup) : (GoMap.keys (newSocketServer.fill n i c)).Nodup := by
  induction n generalizing i c with
  | zero => simpa [newSocketServer.fill] using h
  | succ n ih =>
    simp only [newSocketServer.fill]
    exact ih _ _ (GoMap.nodup_keys_set c i [] h)

theorem newSocketServer.fill_values (n : Nat) (i : Int) (c : Cache)
    (h : ∀ p ∈ c, p.2 = []) : ∀ p ∈ newSocketServer.fill n i c, p.2 = [] := by
  induction n generalizing i c with
  | zero => simpa [newSocketServer.fill] using h
  | succ n ih =>
    simp only [newSocketServer.fill]
    exact ih _ _ (GoMap.values_set (fun v => v = []) c i [] h rfl)

/-! ## Frame lemmas for die and the broadcast loop -/

theorem die_shardCache (s : socketServer) (conn : Conn) :
    (die s conn).shardCache = s.shardCache := by
  unfold die
  dsimp only
  split
  · rfl
  · split <;> rfl

theorem die_trace (s : socketServer) (conn : Conn) :
    (die s conn).trace = s.trace ++ [Effect.close conn] := by
  unfold die
  dsimp only
  split
  · rfl
  · split <;> rfl

theorem broadcastLoop_shardCache (env : Env) (pm : Message) (idxs : List Nat)
    (s : socketServer) : (broadcastLoop env pm idxs s).shardCache = s.shardCache := by
  induction idxs generalizing s with
  | nil => rfl
  | cons idx rest ih =>
    simp only [broadcastLoop]
    split
    · exact ih s
    · split
      · rw [ih, die_shardCache]
      · rw [ih]

theorem broadcastLoop_trace (env : Env) (pm : Message) (idxs : List Nat) (s : socketServer) :
    ∃ ds : List Effect, (∀ e ∈ ds, e.isDelivery = true) ∧
      (broadcastLoop env pm idxs s).trace = s.trace ++ ds := by
  induction idxs generalizing s with
  | nil => exact ⟨[], by simp, by simp [broadcastLoop]⟩
  | cons idx rest ih =>
    simp only [broadcastLoop]
    split
    · exact ih s
    · rename_i c _
      split
      · obtain ⟨ds, hds, htr⟩ :=
          ih (die { s with trace := s.trace ++ [Effect.write c pm false] } c)
        refine ⟨Effect.write c pm false :: Effect.close c :: ds, ?_, ?_⟩
        · intro e he
          simp only [List.mem_cons] at he
          rcases he with he | he | he
          · subst he; rfl
          · subst he; rfl
          · exact hds e he
        · rw [htr, die_trace]
          simp
      · obtain ⟨ds, hds, htr⟩ :=
          ih { s with trace := s.trace ++ [Effect.write c pm true] }
        refine ⟨Effect.write c pm true :: ds, ?_, ?_⟩
        · intro e he
          simp only [List.mem_cons] at he
          rcases he with he | he
          · subst he; rfl
          · exact hds e he
        · rw [htr]
          simp

theorem sayUpdate_shardCache (env : Env) (s : socketServer) (u : ShardUpdate) :
    (sayUpdate env s u).shardCache = s.shardCache := by
  unfold sayUpdate
  dsimp only
  rw [broadcastLoop_shardCache]

theorem sayUpdate_trace (env : Env) (s : socketServer) (u : ShardUpdate) :
    ∃ ds : List Effect, (∀ e ∈ ds, e.isDelivery = true) ∧
      (sayUpdate env s u).trace =
        s.trace ++ Effect.prepared (Message.update u.Bot u.ID u.Status) :: ds := by
  unfold sayUpdate
  dsimp only
  obtain ⟨ds, hds, htr⟩ := broadcastLoop_trace env (Message.update u.Bot u.ID u.Status)
    (List.range s.clients.len)
    { s with trace := s.trace ++ [Effect.prepared (Message.update u.Bot u.ID u.Status)] }
  exact ⟨ds, hds, by rw [htr]; simp⟩

theorem updateStep_of_entry (env : Env) (s : socketServer) (u : ShardUpdate) (shards : GoMap Int)
    (h : GoMap.get s.shardCache u.Bot = some shards) :
    updateStep env s u =
      saveState env
        { sayUpdate env s u with
          shardCache := GoMap.set s.shardCache u.Bot (GoMap.set shards u.ID u.Status)
          trace := (sayUpdate env s u).trace ++ [Effect.cacheSet u.Bot u.ID u.Status] } := by
  unfold updateStep
  simp only [sayUpdate_shardCache, h]

theorem saveState_shardCache (env : Env) (s : socketServer) :
    (saveState env s).state.shardCache = s.shardCache := by
  unfold saveState
  dsimp only
  split <;> rfl

theorem saveState_trace (env : Env) (s : socketServer) :
    (saveState env s).state.trace =
      s.trace ++ [Effect.writeFile s.shardCache env.diskOk] := by
  unfold saveState
  dsimp only
  split <;> rfl

theorem updateStep_keys_aux (env : Env) (s : socketServer) (u : ShardUpdate) :
    GoMap.keys (updateStep env s u).state.shardCache = GoMap.keys s.shardCache := by
  cases h : GoMap.get s.shardCache u.Bot with
  | none =>
    unfold updateStep
    simp only [sayUpdate_shardCache, h]
  | some shards =>
    rw [updateStep_of_entry env s u shards h, saveState_shardCache]
    exact GoMap.keys_set_present _ _ _ (by simp [h])

/-! ## The state engine: cache contents (C3) -/

/-- C3: for every cache with an entry for the update's bot, the update case of
`run` leaves `cache[bot][id] == status`, every other (bot, shard) pair keeps its
value or absence, and every bot keeps its entry or absence. -/
theorem updateStep_cache (env : Env) (s : socketServer) (u : ShardUpdate)
    (h : (GoMap.get s.shardCache u.Bot).isSome = true) :
    Cache.status (updateStep env s u).state.shardCache u.Bot u.ID = some u.Status ∧
    (∀ b i : Int, ¬ (b = u.Bot ∧ i = u.ID) →
      Cache.status (updateStep env s u).state.shardCache b i = Cache.status s.shardCache b i) ∧
    (∀ b : Int, (GoMap.get (updateStep env s u).state.shardCache b).isSome =
      (GoMap.get s.shardCache b).isSome) := by
  obtain ⟨shards, hs⟩ := Option.isSome_iff_exists.mp h
  rw [updateStep_of_entry env s u shards hs, saveState_shardCache]
  dsimp only
  refine ⟨?_, ?_, ?_⟩
  · simp [Cache.status, GoMap.get_set_self]
  · intro b i hne
    by_cases hb : b = u.Bot
    · subst hb
      have hi : i ≠ u.ID := fun e => hne ⟨rfl, e⟩
      simp [Cache.status, GoMap.get_set_self, hs, GoMap.get_set_other _ _ _ _ hi]
    · simp [Cache.status, GoMap.get_set_other _ _ _ _ hb]
  · intro b
    by_cases hb : b = u.Bot
    · subst hb
      simp [GoMap.get_set_self, hs]
    · rw [GoMap.get_set_other _ _ _ _ hb]

/-- Witness for C3: bot 0 is cached in `engineOneClient`, and the step for
`{bot:0, id:3, status:2}` overwrites status 1 of shard 3 with 2. -/
theorem updateStep_cache_witness :
    (GoMap.get engineOneClient.shardCache updateBot0.Bot).isSome = true ∧
    Cache.status (updateStep healthyEnv engineOneClient updateBot0).state.shardCache
      updateBot0.Bot updateBot0.ID = some updateBot0.Status :=
  ⟨by decide, (updateStep_cache healthyEnv engineOneClient updateBot0 (by decide)).1⟩

/-! ## The state engine: order of effects (C5) -/

/-- C5, as the code has it: in every update step whose bot has a cache entry,
`sayUpdate` runs first and on the pre-update cache; the effects of the step are
the prepared message, then the socket traffic of the broadcast, then the cache
write, then the write of the snapshot file. -/
theorem updateStep_effect_order (env : Env) (s : socketServer) (u : ShardUpdate)
    (h : (GoMap.get s.shardCache u.Bot).isSome = true) :
    (sayUpdate env s u).shardCache = s.shardCache ∧
    ∃ ds : List Effect, (∀ e ∈ ds, e.isDelivery = true) ∧
      (sayUpdate env s u).trace =
        s.trace ++ Effect.prepared (Message.update u.Bot u.ID u.Status) :: ds ∧
      (updateStep env s u).state.trace =
        s.trace ++ Effect.prepared (Message.update u.Bot u.ID u.Status) :: ds ++
          [Effect.cacheSet u.Bot u.ID u.Status,
           Effect.writeFile (updateStep env s u).state.shardCache env.diskOk] := by
  obtain ⟨shards, hs⟩ := Option.isSome_iff_exists.mp h
  refine ⟨sayUpdate_shardCache env s u, ?_⟩
  obtain ⟨ds, hds, htr⟩ := sayUpdate_trace env s u
  refine ⟨ds, hds, htr, ?_⟩
  rw [updateStep_of_entry env s u shards hs, saveState_trace, saveState_shardCache]
  dsimp only
  rw [htr]
  simp

/-- Witness for C5 (amended) on `engineOneClient` and `{bot:0, id:3, status:2}`. -/
theorem updateStep_effect_order_witness :
    (GoMap.get engineOneClient.shardCache updateBot0.Bot).isSome = true ∧
    (sayUpdate healthyEnv engineOneClient updateBot0).shardCache = engineOneClient.shardCache :=
  ⟨by decide, (updateStep_effect_order healthyEnv engineOneClient updateBot0 (by decide)).1⟩

/-- C5, counterexample: on `engineOneClient` the step for `{bot:0, id:3, status:2}`
prepares and writes the Update before the cache write and before the snapshot
write, and the cache still maps shard 3 of bot 0 to its old status 1 when
`sayUpdate` returns. -/
theorem updateStep_broadcasts_before_commit :
    (updateStep healthyEnv engineOneClient updateBot0).state.trace =
      [Effect.prepared (Message.update 0 3 2),
       Effect.write 7 (Message.update 0 3 2) true,
       Effect.cacheSet 0 3 2,
       Effect.writeFile [(0, [(3, 2)]), (1, []), (2, [])] true] ∧
    Cache.status (sayUpdate healthyEnv engineOneClient updateBot0).shardCache 0 3 = some 1 ∧
    ¬ CommitBeforeBroadcast (updateStep healthyEnv engineOneClient updateBot0).state.trace
        updateBot0 := by
  refine ⟨by decide, by decide, ?_⟩
  intro hc
  have h := hc [] [Effect.write 7 (Message.update 0 3 2) true, Effect.cacheSet 0 3 2,
    Effect.writeFile [(0, [(3, 2)]), (1, []), (2, [])] true]
    (Effect.prepared (Message.update 0 3 2)) (by decide) rfl
  exact absurd h.1 (by simp)

/-! ## The cache keys (C9) -/

/-- C9: for every topology with `patronBotCount >= 0`, `newSocketServer` returns
a server whose cache has exactly one entry for each bot in `[0, patronBotCount]`,
no other key, and only empty shard maps; and an update step never changes the
list of bot keys of the cache. -/
theorem cache_keys_invariant (totalShards patronBots patronShards : Int)
    (hpb : 0 ≤ patronBots) :
    (∃ s, newSocketServer (some totalShards) (some patronBots) (some patronShards) = some s ∧
      (GoMap.keys s.shardCache).Nodup ∧
      (∀ b : Int, b ∈ GoMap.keys s.shardCache ↔ 0 ≤ b ∧ b ≤ patronBots) ∧
      (∀ b : Int, 0 ≤ b → b ≤ patronBots → GoMap.get s.shardCache b = some []) ∧
      (∀ p ∈ s.shardCache, p.2 = [])) ∧
    (∀ (env : Env) (s : socketServer) (u : ShardUpdate),
      GoMap.keys (updateStep env s u).state.shardCache = GoMap.keys s.shardCache) := by
  refine ⟨⟨_, rfl, ?_, ?_, ?_, ?_⟩, updateStep_keys_aux⟩
  · exact newSocketServer.fill_nodup _ _ _ (by simp [GoMap.set, GoMap.keys])
  · intro b
    rw [GoMap.mem_keys_iff]
    dsimp only
    rw [newSocketServer.fill_get]
    by_cases hb : 1 ≤ b ∧ b < 1 + (patronBots.toNat : Int)
    · rw [if_pos hb]
      simp only [Option.isSome_some, true_iff]
      omega
    · rw [if_neg hb]
      by_cases h0 : b = 0
      · subst h0
        simp [GoMap.set, GoMap.get, hpb]
      · have h0' : ¬ (0 : Int) = b := fun e => h0 e.symm
        simp only [GoMap.set, GoMap.get, h0', if_false, Option.isSome_none]
        constructor
        · intro hf
          exact absurd hf (by decide)
        · intro hr
          omega
  · intro b hb0 hb1
    dsimp only
    rw [newSocketServer.fill_get]
    by_cases hb : 1 ≤ b ∧ b < 1 + (patronBots.toNat : Int)
    · rw [if_pos hb]
    · rw [if_neg hb]
      have : b = 0 := by omega
      subst this
      simp [GoMap.set, GoMap.get]
  · exact newSocketServer.fill_values _ _ _ (by simp [GoMap.set])

/-- Witness for C9 at topology (10, 2, 5): the cache keys are exactly 0, 1, 2. -/
theorem cache_keys_invariant_witness :
    (0 : Int) ≤ 2 ∧
    ∃ s, newSocketServer (some 10) (some 2) (some 5) = some s ∧
      (GoMap.keys s.shardCache).Nodup ∧
      (∀ b : Int, b ∈ GoMap.keys s.shardCache ↔ 0 ≤ b ∧ b ≤ 2) ∧
      (∀ b : Int, 0 ≤ b → b ≤ 2 → GoMap.get s.shardCache b = some []) ∧
      (∀ p ∈ s.shardCache, p.2 = []) :=
  ⟨by decide, (cache_keys_invariant 10 2 5 (by decide)).1⟩

/-! ## The webhook handler -/

theorem StatusWebhook.isAllowed_iff (Ips : List String) (addr : String) :
    StatusWebhook.isAllowed Ips addr = true ↔ ∃ v ∈ Ips, TrimSpace v = addr := by
  induction Ips with
  | nil => simp [StatusWebhook.isAllowed]
  | cons v rest ih =>
    by_cases h : TrimSpace v = addr
    · simp [StatusWebhook.isAllowed, h]
    · simp [StatusWebhook.isAllowed, h, ih]

/-- The handler answers 403 exactly when the (trimmed) allow-list holds the
source address, and then leaves the socket server untouched. -/
theorem StatusWebhook_forbidden_iff (s : Server) (r : Request) :
    (∃ sock, StatusWebhook s r = HandlerResult.responded 403 sock) ↔
      ∃ v ∈ s.Ips, TrimSpace v = r.RemoteAddr := by
  rw [← StatusWebhook.isAllowed_iff]
  unfold StatusWebhook
  dsimp only
  by_cases h : StatusWebhook.isAllowed s.Ips r.RemoteAddr = true
  · simp [h]
  · simp only [h]
    constructor
    · rintro ⟨sock, hs⟩
      exfalso
      revert hs
      simp only [Bool.false_eq_true, if_false]
      split
      · intro hs; cases hs
      · split
        · intro hs; cases hs
        · intro hs; cases hs
        · split
          · intro hs; cases hs
          · split
            · intro hs; cases hs
            · split
              · intro hs; cases hs
              · split
                · intro hs; cases hs
                · intro hs; cases hs
    · intro hf
      exact absurd hf (by simp)

/-- C1, the code at the failing input: with topology (10, 2, 5) the update
`{bot:3, id:1, status:1}`, whose bot lies outside `[0, 2]`, is answered 202 and
put on the queue; the specification's `{bot:1, id:6, status:1}` is answered 400. -/
theorem StatusWebhook_accepts_bot_past_bound :
    ¬ ((0 : Int) ≤ 3 ∧ (3 : Int) ≤ server1025.socket.patronBots) ∧
    StatusWebhook server1025 (requestFrom "10.9.9.9:5000" ⟨3, 1, 1⟩) =
      HandlerResult.responded 202 { sock1025 with updateList := [⟨3, 1, 1⟩] } ∧
    StatusWebhook server1025 (requestFrom "10.9.9.9:5000" ⟨1, 6, 1⟩) =
      HandlerResult.responded 400 sock1025 := by
  decide

/-- C2, as the code has it: a request that passes the address check, the key
check and decoding, whose bot is in `[0, patronBotCount]` and whose shard is in
`[0, totalShards]` and, for a patron bot, also at most `patronShardCount`,
reaches the send of exactly that update: with room in the queue the update is
appended at its tail and the answer is 202; on a full queue the handler waits
at the send of that update, with no answer written and nothing dropped. -/
theorem StatusWebhook_accepts_in_range (s : Server) (r : Request) (u : ShardUpdate)
    (haddr : StatusWebhook.isAllowed s.Ips r.RemoteAddr = false)
    (hkey : Base r.Path = s.Key)
    (hbody : r.body = Body.decoded u)
    (hbot : 0 ≤ u.Bot ∧ u.Bot ≤ s.socket.patronBots)
    (hid : 0 ≤ u.ID ∧ u.ID ≤ s.socket.totalShards)
    (hpatron : 1 ≤ u.Bot → u.ID ≤ s.socket.patronShards) :
    StatusWebhook s r =
      if s.socket.updateList.length < updateListCap then
        HandlerResult.responded 202 { s.socket with updateList := s.socket.updateList ++ [u] }
      else HandlerResult.blockedOnSend u := by
  unfold StatusWebhook
  dsimp only
  have h1 : ¬ (u.Bot < 0 ∨ u.Bot > s.socket.patronBots + 1) := by omega
  have h2 : ¬ (u.ID < 0 ∨ u.ID > s.socket.totalShards) := by omega
  have h3 : ¬ (u.Bot > 0 ∧ u.ID > s.socket.patronShards) := by
    rintro ⟨ha, hb⟩
    have := hpatron (by omega)
    omega
  simp only [haddr, hkey, hbody, ne_eq, not_true_eq_false, if_false, Bool.false_eq_true,
    h1, h2, h3]

/-- Witness for C2 (amended): topology (10, 2, 5), patron bot 1, shard 5, on an
empty queue (202, update at the tail) and on a full queue (the handler waits at
the send of that update). -/
theorem StatusWebhook_accepts_in_range_witness :
    StatusWebhook.isAllowed server1025.Ips "10.9.9.9:5000" = false ∧
    StatusWebhook server1025 (requestFrom "10.9.9.9:5000" ⟨1, 5, 4⟩) =
      HandlerResult.responded 202 { sock1025 with updateList := [⟨1, 5, 4⟩] } ∧
    server1025Full.socket.updateList.length = updateListCap ∧
    StatusWebhook server1025Full (requestFrom "10.9.9.9:5000" ⟨1, 5, 4⟩) =
      HandlerResult.blockedOnSend ⟨1, 5, 4⟩ :=
  ⟨by decide,
   (StatusWebhook_accepts_in_range server1025 (requestFrom "10.9.9.9:5000" ⟨1, 5, 4⟩) ⟨1, 5, 4⟩
      (by decide) (by decide) rfl (by decide) (by decide) (by decide)).trans
      (if_pos (by decide)),
   by simp [server1025Full, updateListCap],
   (StatusWebhook_accepts_in_range server1025Full (requestFrom "10.9.9.9:5000" ⟨1, 5, 4⟩)
      ⟨1, 5, 4⟩ (by decide) (by decide) rfl (by decide) (by decide) (by decide)).trans
      (if_neg (by simp [server1025Full, updateListCap]))⟩

/-- C2, counterexample: with topology (3, 2, 5) the update `{bot:1, id:4, status:1}`
has a patron bot in `[0, 2]` and a shard in `[0, patronShardCount] = [0, 5]`, the
request passes the address check, the key check and decoding, and the handler
answers 400 and leaves the queue as it was. -/
theorem StatusWebhook_patron_bound_uses_totalShards :
    (0 ≤ server325.socket.totalShards ∧ 0 ≤ server325.socket.patronBots ∧
      0 ≤ server325.socket.patronShards) ∧
    StatusWebhook.isAllowed server325.Ips "10.9.9.9:5000" = false ∧
    Base (requestFrom "10.9.9.9:5000" ⟨1, 4, 1⟩).Path = server325.Key ∧
    ((1 : Int) ≤ 1 ∧ (1 : Int) ≤ server325.socket.patronBots) ∧
    ((0 : Int) ≤ 4 ∧ (4 : Int) ≤ server325.socket.patronShards) ∧
    StatusWebhook server325 (requestFrom "10.9.9.9:5000" ⟨1, 4, 1⟩) =
      HandlerResult.responded 400 server325.socket := by
  decide

/-- C6, the code at the failing input: a request from the allow-listed address
"10.0.0.1:4000", with the right key and a valid update, is answered 403 and
nothing is queued; the same request from "10.9.9.9:5000", which is not on the
allow-list, is answered 202 and queued. -/
theorem StatusWebhook_rejects_listed_address :
    "10.0.0.1:4000" ∈ server1025.Ips ∧
    StatusWebhook server1025 (requestFrom "10.0.0.1:4000" updateBot0) =
      HandlerResult.responded 403 sock1025 ∧
    "10.9.9.9:5000" ∉ server1025.Ips ∧
    StatusWebhook server1025 (requestFrom "10.9.9.9:5000" updateBot0) =
      HandlerResult.responded 202 { sock1025 with updateList := [updateBot0] } := by
  decide

/-- C7: a request that is not answered 403 and whose key, the last element of
the URL path, differs from the configured secret is answered 401 whatever its
body, and the socket server (queue and cache included) is left as it was. -/
theorem StatusWebhook_wrong_key (s : Server) (r : Request)
    (hnot403 : ∀ sock, StatusWebhook s r ≠ HandlerResult.responded 403 sock)
    (hkey : Base r.Path ≠ s.Key) :
    StatusWebhook s r = HandlerResult.responded 401 s.socket := by
  have hallow : StatusWebhook.isAllowed s.Ips r.RemoteAddr = false := by
    cases ha : StatusWebhook.isAllowed s.Ips r.RemoteAddr with
    | false => rfl
    | true =>
      exfalso
      apply hnot403 s.socket
      unfold StatusWebhook
      simp [ha]
  unfold StatusWebhook
  simp [hallow, hkey]

/-- Witness for C7: the key "guess" against the secret "s3cret", with a valid
update in the body. -/
theorem StatusWebhook_wrong_key_witness :
    Base "/api/webhook/guess" ≠ server1025.Key ∧
    StatusWebhook server1025
        { RemoteAddr := "10.9.9.9:5000", Path := "/api/webhook/guess",
          body := Body.decoded updateBot0 } =
      HandlerResult.responded 401 server1025.socket :=
  ⟨by decide,
   StatusWebhook_wrong_key server1025
    { RemoteAddr := "10.9.9.9:5000", Path := "/api/webhook/guess",
      body := Body.decoded updateBot0 }
    (by
      intro sock h
      have e : StatusWebhook server1025
          { RemoteAddr := "10.9.9.9:5000", Path := "/api/webhook/guess",
            body := Body.decoded updateBot0 } =
          HandlerResult.responded 401 server1025.socket := by decide
      rw [e] at h
      injection h with hcode _
      exact absurd hcode (by decide))
    (by decide)⟩

/-- C10, the code at the failing input: on the server built by `newSocketServer`
for topology (10, 2, 5), the update `{bot:3, id:1, status:1}` is answered 202 and
queued, the cache has no entry for bot 3, and the update case of `run` on that
queue stops with the nil-map panic, the cache unwritten. -/
theorem accepted_update_hits_missing_bot :
    newSocketServer (some 10) (some 2) (some 5) = some sock1025 ∧
    StatusWebhook server1025 (requestFrom "10.9.9.9:5000" ⟨3, 1, 1⟩) =
      HandlerResult.responded 202 { sock1025 with updateList := [⟨3, 1, 1⟩] } ∧
    GoMap.get sock1025.shardCache 3 = none ∧
    (runUpdateCase healthyEnv { sock1025 with updateList := [⟨3, 1, 1⟩] }).map
        (fun res => (res.panic, res.state.shardCache)) =
      some (some Panic.nilMap, sock1025.shardCache) := by
  decide

/-! ## The connection registry (C8) -/

theorem die.find_eq_none (conn : Conn) (l : List Conn) (k : Nat) :
    die.find conn l k = none ↔ conn ∉ l := by
  induction l generalizing k with
  | nil => simp [die.find]
  | cons c rest ih =>
    by_cases h : c = conn
    · simp [die.find, h]
    · have h' : ¬ conn = c := fun e => h e.symm
      simp [die.find, h, h', ih]

theorem die.find_eq_some (conn : Conn) (l : List Conn) (k j : Nat)
    (h : die.find conn l k = some j) :
    ∃ pre post, l = pre ++ conn :: post ∧ conn ∉ pre ∧ j = k + pre.length := by
  induction l generalizing k with
  | nil => simp [die.find] at h
  | cons c rest ih =>
    by_cases hc : c = conn
    · simp [die.find, hc] at h
      exact ⟨[], rest, by simp [hc], by simp, by simp [h]⟩
    · simp only [die.find, hc, if_false] at h
      obtain ⟨pre, post, hl, hpre, hj⟩ := ih (k + 1) h
      refine ⟨c :: pre, post, by simp [hl], ?_, by simp [hj]; omega⟩
      simp only [List.mem_cons, not_or]
      exact ⟨fun e => hc e.symm, hpre⟩

theorem list_set_at_length {α : Type} (pre : List α) (x y : α) (rest : List α) :
    (pre ++ x :: rest).set pre.length y = pre ++ y :: rest := by
  induction pre with
  | nil => rfl
  | cons a pre ih => simp [ih]

theorem list_get?_at_length {α : Type} (pre : List α) (x : α) (rest : List α) :
    (pre ++ x :: rest).get? pre.length = some x := by
  induction pre with
  | nil => rfl
  | cons a pre ih => simpa using ih

theorem erase_first_occurrence (pre post : List Conn) (conn : Conn) (h : conn ∉ pre) :
    (pre ++ conn :: post).erase conn = pre ++ post := by
  induction pre with
  | nil => simp
  | cons a pre ih =>
    simp only [List.mem_cons, not_or] at h
    have hne : ¬ a = conn := fun e => h.1 e.symm
    simp [List.erase_cons, hne, ih h.2]

/-- The clients left by `die` when the slice is `pre ++ conn :: post` over a
backing array with further elements `rest`, `conn` not occurring in `pre`. -/
theorem die_clients_split (s : socketServer) (conn : Conn) (pre post rest : List Conn)
    (hpre : conn ∉ pre)
    (harr : s.clients.arr = pre ++ conn :: post ++ rest)
    (hlen : s.clients.len = pre.length + 1 + post.length) :
    (die s conn).clients.toList = pre ++ (post.getLast?.toList ++ post.dropLast) ∧
    (die s conn).clients.len + 1 = s.clients.len ∧
    (die s conn).clients.arr.length = s.clients.arr.length := by
  have htl : s.clients.toList = pre ++ conn :: post := by
    unfold Slice.toList
    rw [harr, hlen]
    exact List.take_left' (by simp; omega)
  have hfind : die.find conn (pre ++ conn :: post) 0 = some pre.length := by
    cases hf : die.find conn (pre ++ conn :: post) 0 with
    | none =>
      exfalso
      exact (die.find_eq_none conn _ 0).mp hf (by simp)
    | some j =>
      obtain ⟨pre', post', hl, hpre', hj⟩ := die.find_eq_some conn _ 0 j hf
      have : pre' = pre := by
        have h1 := erase_first_occurrence pre post conn hpre
        have h2 := erase_first_occurrence pre' post' conn hpre'
        rw [← hl] at h2
        have hlen' : pre'.length = pre.length := by
          by_contra hne
          rcases Nat.lt_or_gt_of_ne hne with hlt | hgt
          · have : (pre ++ conn :: post).get? pre'.length = some conn := by
              rw [hl]; exact list_get?_at_length pre' conn post'
            rw [List.get?_eq_getElem?, List.getElem?_append_left hlt] at this
            exact hpre (List.getElem?_mem this)
          · have : (pre' ++ conn :: post').get? pre.length = some conn := by
              rw [← hl]; exact list_get?_at_length pre conn post
            rw [List.get?_eq_getElem?, List.getElem?_append_left hgt] at this
            exact hpre' (List.getElem?_mem this)
        exact (List.append_inj hl hlen'.symm).1.symm
      rw [hj, this]; simp
  rcases List.eq_nil_or_concat post with hpost | ⟨mid, cl, hpost⟩
  · subst hpost
    have hget : s.clients.arr.get? pre.length = some conn := by
      rw [harr]; simpa using list_get?_at_length pre conn rest
    have hlast : s.clients.len - 1 = pre.length := by
      simp at hlen; omega
    have harr2 : s.clients.arr = pre ++ conn :: rest := by
      rw [harr]; simp
    unfold die
    simp only [htl, hfind, hlast, hget]
    rw [harr2, list_set_at_length, list_set_at_length]
    simp only [Slice.toList, List.getLast?_nil, Option.toList_none, List.dropLast_nil,
      List.append_nil]
    refine ⟨List.take_left' rfl, by omega, by simp⟩
  · rw [List.concat_eq_append] at hpost
    subst hpost
    have hget : s.clients.arr.get? pre.length = some conn := by
      rw [harr]
      simpa using list_get?_at_length pre conn (mid ++ [cl] ++ rest)
    have hlast : s.clients.len - 1 = (pre ++ conn :: mid).length := by
      simp at hlen ⊢; omega
    have harr2 : s.clients.arr = (pre ++ conn :: mid) ++ cl :: rest := by
      rw [harr]; simp
    have hgetl : s.clients.arr.get? (pre ++ conn :: mid).length = some cl := by
      rw [harr2]; exact list_get?_at_length _ cl rest
    unfold die
    simp only [htl, hfind, hlast, hget, hgetl]
    rw [harr2, list_set_at_length]
    have e1 : (pre ++ conn :: mid) ++ conn :: rest = pre ++ conn :: (mid ++ conn :: rest) := by
      simp
    rw [e1, list_set_at_length]
    have e2 : pre ++ cl :: (mid ++ conn :: rest) = (pre ++ cl :: mid) ++ conn :: rest := by
      simp
    rw [e2]
    simp only [Slice.toList, List.getLast?_append, List.getLast?_singleton,
      Option.or_some, Option.toList_some, List.dropLast_concat, List.singleton_append]
    refine ⟨List.take_left' (by simp), ?_, by simp⟩
    simp at hlen ⊢
    omega

theorem getLast_dropLast_perm (post : List Conn) :
    List.Perm (post.getLast?.toList ++ post.dropLast) post := by
  rcases List.eq_nil_or_concat post with hpost | ⟨mid, cl, hpost⟩
  · subst hpost; simp
  · rw [List.concat_eq_append] at hpost
    subst hpost
    simp only [List.getLast?_append, List.getLast?_singleton, Option.or_some,
      Option.toList_some, List.dropLast_concat, List.singleton_append]
    exact (List.perm_append_singleton cl mid).symm

theorem die_clients_of_not_mem (s : socketServer) (conn : Conn)
    (h : conn ∉ s.clients.toList) : (die s conn).clients = s.clients := by
  have hf := (die.find_eq_none conn s.clients.toList 0).mpr h
  unfold die
  simp only [hf]

theorem die_clients_perm (s : socketServer) (conn : Conn) (hwf : s.clients.WF) :
    List.Perm (die s conn).clients.toList (s.clients.toList.erase conn) := by
  by_cases hmem : conn ∈ s.clients.toList
  · cases hf : die.find conn s.clients.toList 0 with
    | none => exact absurd hmem ((die.find_eq_none conn _ 0).mp hf)
    | some i =>
      obtain ⟨pre, post, hl, hpre, _⟩ := die.find_eq_some conn _ 0 i hf
      have hlenl : s.clients.toList.length = s.clients.len := by
        unfold Slice.toList
        rw [List.length_take]
        exact Nat.min_eq_left hwf
      have hlen : s.clients.len = pre.length + 1 + post.length := by
        rw [← hlenl, hl]; simp; omega
      have harr : s.clients.arr = pre ++ conn :: post ++ s.clients.arr.drop s.clients.len := by
        rw [← hl]
        unfold Slice.toList
        exact (List.take_append_drop _ _).symm
      obtain ⟨h1, _, _⟩ := die_clients_split s conn pre post _ hpre harr hlen
      rw [h1, hl, erase_first_occurrence pre post conn hpre]
      exact List.Perm.append_left pre (getLast_dropLast_perm post)
  · rw [die_clients_of_not_mem s conn hmem, List.erase_of_not_mem hmem]

/-- C8: `die(conn)` leaves the registry equal, up to order, to the previous
list with one occurrence of `conn` erased: a registered `conn` makes the list
one shorter and lowers its own count by one, every other connection keeps its
count, and an unregistered `conn` leaves the slice as it was. -/
theorem die_removes_one_occurrence (s : socketServer) (conn : Conn) (hwf : s.clients.WF) :
    List.Perm (die s conn).clients.toList (s.clients.toList.erase conn) ∧
    (conn ∈ s.clients.toList →
      (die s conn).clients.toList.length + 1 = s.clients.toList.length ∧
      (die s conn).clients.toList.count conn + 1 = s.clients.toList.count conn) ∧
    (∀ c : Conn, c ≠ conn →
      (die s conn).clients.toList.count c = s.clients.toList.count c) ∧
    (conn ∉ s.clients.toList → (die s conn).clients = s.clients) := by
  have hperm := die_clients_perm s conn hwf
  refine ⟨hperm, ?_, ?_, die_clients_of_not_mem s conn⟩
  · intro hmem
    constructor
    · rw [hperm.length_eq, List.length_erase_of_mem hmem]
      have : 0 < s.clients.toList.length := List.length_pos_of_mem hmem
      omega
    · rw [hperm.count_eq, List.count_erase_self]
      have : 0 < s.clients.toList.count conn := List.count_pos_iff.mpr hmem
      omega
  · intro c hc
    rw [hperm.count_eq, List.count_erase_of_ne hc]

/-- Witness for C8: removing client 1 from the registry `[1, 2, 3]`. -/
theorem die_removes_one_occurrence_witness :
    engineThreeClients.clients.WF ∧
    List.Perm (die engineThreeClients 1).clients.toList
      (engineThreeClients.clients.toList.erase 1) :=
  ⟨by decide, (die_removes_one_occurrence engineThreeClients 1 (by decide)).1⟩

/-! ## The broadcast engine (C4) -/

/-- C4, the code at the failing input: with the registry `[1, 2, 3]` and
connection 1 failing, `sayUpdate` and `sayTick` write to 1, remove it (which
moves 3 into its place), write to 2, and then read 1 again at the third index:
connection 3 is registered, does not fail, and is never written to. -/
theorem broadcast_skips_client_after_failure :
    engineThreeClients.clients.toList = [1, 2, 3] ∧
    conn1FailsEnv.fails 3 = false ∧
    (sayUpdate conn1FailsEnv engineThreeClients updateBot0).trace =
      [Effect.prepared (Message.update 0 3 2),
       Effect.write 1 (Message.update 0 3 2) false, Effect.close 1,
       Effect.write 2 (Message.update 0 3 2) true,
       Effect.write 1 (Message.update 0 3 2) false, Effect.close 1] ∧
    attempted (sayUpdate conn1FailsEnv engineThreeClients updateBot0).trace 3
      (Message.update 0 3 2) = 0 ∧
    delivered (sayUpdate conn1FailsEnv engineThreeClients updateBot0).trace 3
      (Message.update 0 3 2) = 0 ∧
    delivered (sayTick conn1FailsEnv engineThreeClients).trace 3 Message.tick = 0 ∧
    (sayUpdate conn1FailsEnv engineThreeClients updateBot0).clients.toList = [3, 2] := by
  decide

/-! ## What the broadcast loop does when no registered connection fails -/

theorem broadcastLoop_healthy (env : Env) (pm : Message) (idxs : List Nat) (s : socketServer)
    (h : ∀ i ∈ idxs, ∀ c, s.clients.arr.get? i = some c → env.fails c = false) :
    broadcastLoop env pm idxs s =
      { s with
        trace := s.trace ++
          idxs.filterMap (fun i => (s.clients.arr.get? i).map (fun c => Effect.write c pm true)) } := by
  induction idxs generalizing s with
  | nil => simp [broadcastLoop]
  | cons idx rest ih =>
    simp only [broadcastLoop]
    cases hg : s.clients.arr.get? idx with
    | none =>
      simp only [List.filterMap_cons, hg, Option.map_none']
      exact ih s (fun i hi => h i (List.mem_cons_of_mem _ hi))
    | some c =>
      have hc : env.fails c = false := h idx (List.mem_cons_self _ _) c hg
      simp only [hc, Bool.false_eq_true, if_false, List.filterMap_cons, hg, Option.map_some']
      have hrest := ih { s with trace := s.trace ++ [Effect.write c pm true] }
        (fun i hi => h i (List.mem_cons_of_mem _ hi))
      rw [hrest]
      simp

theorem range_filterMap_get? {α β : Type} (f : α → β) (arr : List α) (n : Nat)
    (hn : n ≤ arr.length) :
    (List.range n).filterMap (fun i => (arr.get? i).map f) = (arr.take n).map f := by
  induction n with
  | zero => simp
  | succ n ih =>
    have hlt : n < arr.length := hn
    rw [List.range_succ, List.filterMap_append, ih (Nat.le_of_lt hlt), List.take_succ,
      List.map_append]
    simp [List.getElem?_eq_getElem hlt, List.get?_eq_getElem?]

/-- When no registered connection fails, `sayUpdate` writes the Update once to
each element of the registry, in order, and leaves the registry as it was. -/
theorem sayUpdate_healthy (env : Env) (s : socketServer) (u : ShardUpdate)
    (hwf : s.clients.WF) (h : ∀ c ∈ s.clients.toList, env.fails c = false) :
    sayUpdate env s u =
      { s with
        trace := s.trace ++ Effect.prepared (Message.update u.Bot u.ID u.Status) ::
          s.clients.toList.map (fun c => Effect.write c (Message.update u.Bot u.ID u.Status) true) } := by
  unfold sayUpdate
  dsimp only
  rw [broadcastLoop_healthy]
  · dsimp only
    rw [range_filterMap_get? _ _ _ hwf]
    simp [Slice.toList]
  · intro i hi c hc
    apply h
    unfold Slice.toList
    rw [List.mem_range] at hi
    have : (s.clients.arr.take s.clients.len)[i]? = some c := by
      rw [List.getElem?_take_of_lt hi, ← List.get?_eq_getElem?]
      exact hc
    exact List.getElem?_mem this

/-! ## The range checks of the handler -/

/-- An update that reaches the range checks with a bot outside
`[0, patronBots + 1]`, or a shard outside `[0, totalShards]`, or a patron bot
and a shard above `patronShards`, is answered 400 and the socket server is left
as it was. -/
theorem StatusWebhook_rejects_out_of_range (s : Server) (r : Request) (u : ShardUpdate)
    (haddr : StatusWebhook.isAllowed s.Ips r.RemoteAddr = false)
    (hkey : Base r.Path = s.Key)
    (hbody : r.body = Body.decoded u)
    (hout : (u.Bot < 0 ∨ u.Bot > s.socket.patronBots + 1) ∨
      (u.ID < 0 ∨ u.ID > s.socket.totalShards) ∨
      (u.Bot > 0 ∧ u.ID > s.socket.patronShards)) :
    StatusWebhook s r = HandlerResult.responded 400 s.socket := by
  unfold StatusWebhook
  dsimp only
  simp only [haddr, hkey, hbody, ne_eq, not_true_eq_false, if_false, Bool.false_eq_true]
  by_cases h1 : u.Bot < 0 ∨ u.Bot > s.socket.patronBots + 1
  · rw [if_pos h1]
  · rw [if_neg h1]
    by_cases h2 : u.ID < 0 ∨ u.ID > s.socket.totalShards
    · rw [if_pos h2]
    · rw [if_neg h2]
      have h3 : u.Bot > 0 ∧ u.ID > s.socket.patronShards := by
        rcases hout with h | h | h
        · exact absurd h h1
        · exact absurd h h2
        · exact h
      rw [if_pos h3]

end Glance
